import Mathlib

/-
  Verification development for the goinject scoped resolution engine.

  The definitions below are a shallow embedding of the Go source files:

    * `InstanceRegistry`, `newInstanceRegistry`, `resolveBinding`,
      `registerDestructionCallback`, `shutdown` embed the instance registry
      (scope source, lines 13 to 73).
    * the contextual scope operations embed `contextualScope`,
      `WithContextualScopeEnabled` and `ShutdownContextualScope`
      (scope source, lines 153 to 199).
    * `Injector`, `findBindingsForAnnotatedType`, `getScopedInstanceFromBinding`,
      `getInstanceOfAnnotatedType`, `eagerlyCreateSingletons` and `NewInjector`
      embed the resolution engine (injector.go).

  Modelling conventions: opaque Go data (binding pointers, produced values,
  provider errors, destruction callbacks, context keys) are natural-number
  identities or small inductive values; Go maps are functions or association
  lists; goroutine interleavings are not modelled, every statement is about
  the sequential semantics of one call after another.  The `Bool` component
  returned by `resolveBinding` is a ghost observation recording whether the
  `instanceCreator` argument was invoked during that call (in Go the creator
  is a closure; here its would-be result is passed as data and the flag
  records whether the code path that calls it was taken).
-/

set_option maxHeartbeats 1000000

section Registry

variable {B I E C : Type}

/-- Embeds `instanceRegistry`: `instanceLock` records for which bindings a
per-binding lock has been allocated (construction started), `instances` is the
memoized value store (the `sync.Map`), `destroyMethods` the ordered teardown
callback list.  `B` is the binding identity (Go uses the `*binding` pointer),
`I` the instance type, `C` the callback identity. -/
structure InstanceRegistry (B I C : Type) where
  instanceLock : B → Bool
  instances : B → Option I
  destroyMethods : List C

/-- Embeds `newInstanceRegistry`: empty lock map, empty value map, empty
callback list. -/
def newInstanceRegistry : InstanceRegistry B I C :=
  ⟨fun _ => false, fun _ => none, []⟩

/-- Embeds `instanceRegistry.resolveBinding` under sequential semantics.
If a per-binding lock already exists, the stored instance is returned with a
nil error (source line 33: `return instance.(Instance), nil`) and the creator
is not invoked.  Otherwise the lock is created, the creator is invoked
(its result is the `creatorInst`/`creatorErr` data), the instance is stored
(even when `creatorErr` is not nil, source line 42), and the creator's result
is returned.  The `Bool` is the ghost invoked-flag. -/
def resolveBinding [DecidableEq B] [Inhabited I] (r : InstanceRegistry B I C) (b : B)
    (creatorInst : I) (creatorErr : Option E) :
    (I × Option E × Bool) × InstanceRegistry B I C :=
  if r.instanceLock b then
    (((r.instances b).getD default, none, false), r)
  else
    ((creatorInst, creatorErr, true),
      { r with
        instanceLock := fun x => if x = b then true else r.instanceLock x,
        instances := fun x => if x = b then some creatorInst else r.instances x })

/-- Embeds `instanceRegistry.registerDestructionCallback`: appends the callback
to the ordered list. -/
def registerDestructionCallback (r : InstanceRegistry B I C) (c : C) :
    InstanceRegistry B I C :=
  { r with destroyMethods := r.destroyMethods ++ [c] }

/-- Embeds the loop of `instanceRegistry.shutdown`
(`for i := len(r.destroyMethods) - 1; i >= 0; i--`): the returned list is the
sequence of invoked callbacks, highest index first. -/
def shutdownLoop [Inhabited C] (ds : List C) : Nat → List C
  | 0 => []
  | i + 1 => ds.getD i default :: shutdownLoop ds i

/-- Embeds `instanceRegistry.shutdown`: runs the teardown loop over
`destroyMethods` and then resets `destroyMethods` to the empty list (the
`instanceLock` and `instances` fields are left untouched, exactly as in the
source).  The first component is the ghost list of invoked callbacks in
invocation order. -/
def shutdown [Inhabited C] (r : InstanceRegistry B I C) :
    List C × InstanceRegistry B I C :=
  (shutdownLoop r.destroyMethods r.destroyMethods.length,
   { r with destroyMethods := [] })

/-- One `resolveBinding` request in a call sequence: the binding identity and
the instance/error the supplied `instanceCreator` would produce. -/
structure RCall (B I E : Type) where
  bnd : B
  inst : I
  err : Option E
deriving DecidableEq

/-- Observed outcome of one `resolveBinding` call: the returned instance and
error, and the ghost flag telling whether the creator was invoked. -/
structure RStep (B I E : Type) where
  bnd : B
  inst : I
  err : Option E
  invoked : Bool
deriving DecidableEq

/-- Runs a sequence of `resolveBinding` calls against a registry, threading the
registry state and collecting the observed outcome of every call. -/
def runResolve [DecidableEq B] [Inhabited I] (r : InstanceRegistry B I C) :
    List (RCall B I E) → List (RStep B I E) × InstanceRegistry B I C
  | [] => ([], r)
  | c :: cs =>
    let step := resolveBinding r c.bnd c.inst c.err
    let rest := runResolve step.2 cs
    (⟨c.bnd, step.1.1, step.1.2.1, step.1.2.2⟩ :: rest.1, rest.2)

/-- Number of steps of a trace that targeted binding `b` and actually invoked
its creator. -/
def countInvoked [DecidableEq B] (b : B) (steps : List (RStep B I E)) : Nat :=
  steps.countP (fun s => decide (s.bnd = b) && s.invoked)

/-- The creator instance supplied by the first call for binding `b` in a call
sequence, if any. -/
def firstInst [DecidableEq B] (b : B) (calls : List (RCall B I E)) : Option I :=
  (calls.find? (fun c => decide (c.bnd = b))).map (fun c => c.inst)

end Registry

section Engine

/-- Go `reflect.Type` values as far as the engine inspects them: plain named
types, slice types (`t.Kind() == reflect.Slice` with element `t.Elem()`),
provider-shaped function types (`func(InvocationContext) (T, error)`), the
`InvocationContext` interface type, and the `*Injector` type. -/
inductive RType
  | base : Nat → RType
  | slice : RType → RType
  | provider : RType → RType
  | invocationCtx : RType
  | injectorT : RType
deriving DecidableEq

/-- Errors produced by the engine.  `injection t ann cause` embeds
`newInjectionError(t, ann, cause)`; the leaf constructors embed the
`fmt.Errorf` causes used in the source (`did not found binding, expected one`,
`did not found binding, expected at least one`, `found multiple bindings
expected one`, `unknown scope %q for binding`), `scopeNotActive` embeds
`contextScopedNotActiveError`, `providerReturned e` embeds
`provider for type %q returned error: e` from `binding.create`, and
`failedEagerSingleton e` embeds `failed to get singleton instance: %w`. -/
inductive EngineErr
  | injection : RType → String → EngineErr → EngineErr
  | notFoundOne : EngineErr
  | notFoundAtLeastOne : EngineErr
  | multipleBindings : EngineErr
  | unknownScope : String → EngineErr
  | scopeNotActive : EngineErr
  | providerReturned : Nat → EngineErr
  | failedEagerSingleton : EngineErr → EngineErr
deriving DecidableEq

/-- Go `reflect.Value` as far as the engine observes it: ordinary provided
values (`prim`), the synthesized provider closure of `createProviderValue`
(payload: the underlying type, the qualifier and the optional flag it
captures), the ambient context value (`reflect.ValueOf(ctx)`, payload
omitted), the injector self-reference, and the invalid zero
`reflect.Value{}`. -/
inductive RValue
  | prim : Nat → RValue
  | providerVal : RType → String → Bool → RValue
  | ctxVal : RValue
  | injectorRef : RValue
  | invalid : RValue
deriving DecidableEq

instance : Inhabited RValue := ⟨RValue.invalid⟩

/-- Result value of a resolution request: a single `reflect.Value` or the
slice built by the collection branch. -/
inductive RResult
  | single : RValue → RResult
  | coll : List RValue → RResult
deriving DecidableEq

/-- The scope implementations shipped or registered: `perLookUpScope`,
the injector's `singletonScope`, and `contextualScope{key}`. -/
inductive ScopeV
  | perLookUp
  | singleton
  | contextual : Nat → ScopeV
deriving DecidableEq

/-- Embeds the constant `Singleton = "inject.Singleton"` (the Lean name avoids
the Mathlib `Singleton` class). -/
def SingletonScope : String := "inject.Singleton"

/-- Embeds the constant `PerLookUp = "inject.PerLookUp"`. -/
def PerLookUpScope : String := "inject.PerLookUp"

/-- Embeds `binding`.  `id` models the `*binding` pointer identity.
`provValue`/`provErr` model the result of invoking the bound provider
(`binding.create` resolves provider arguments recursively through the engine;
the claims checked here only exercise leaf providers, so provider arguments
are not modelled and the provider result is data).  `destroyId` identifies the
`destroyMethod` closure when one is configured. -/
structure Binding where
  id : Nat
  typeof : RType
  annotatedWith : String
  scope : String
  provValue : RValue
  provErr : Option Nat
  destroyId : Option Nat
deriving DecidableEq

/-- Registries used by Singleton and Contextual scopes: keyed by binding
identity, storing `reflect.Value` instances, with `Nat` callback identities. -/
abbrev Reg := InstanceRegistry Nat RValue Nat

/-- An execution context: the chain of `context.WithValue` entries, newest
first, each carrying (key, reference of the instance registry stored under
that key).  `Value` lookup walks the chain outward, which gives the child
contexts delegation to parent registries. -/
abbrev Ctx := List (Nat × Nat)

/-- The heap of contextual instance registries: `regs` dereferences a
registry reference, `next` is the next fresh reference. -/
structure CtxHeap where
  regs : Nat → Reg
  next : Nat

/-- Embeds `ctx.Value(key)` restricted to instance-registry entries: the first
entry of the chain with the key wins. -/
def ctxValue (c : Ctx) (k : Nat) : Option Nat :=
  (c.find? (fun e => decide (e.1 = k))).map (fun e => e.2)

/-- Observable outcome of `contextualScope.RegisterDestructionCallback`, a
method with no return value: either the callback was appended to the registry
found under the key, or the `ok` type assertion failed and the method returned
silently, or `ctx.Value` was invoked on a nil context and the call panicked
with a nil-pointer dereference. -/
inductive RegisterOutcome
  | stored
  | noop
  | panicked
deriving DecidableEq

/-- Embeds `contextualScope.ResolveBinding` (scope source, lines 160 to 173):
nil context or no registry under the key yields `contextScopedNotActiveError`
with the zero `Instance{}` and the creator is not invoked; otherwise the call
delegates to `resolveBinding` on the registry found in the context. -/
def contextualResolveBinding (key : Nat) (h : CtxHeap) (ctx : Option Ctx)
    (bid : Nat) (cInst : RValue) (cErr : Option EngineErr) :
    (RValue × Option EngineErr × Bool) × CtxHeap :=
  match ctx with
  | none => ((.invalid, some .scopeNotActive, false), h)
  | some c =>
    match ctxValue c key with
    | none => ((.invalid, some .scopeNotActive, false), h)
    | some ref =>
      let res := resolveBinding (h.regs ref) bid cInst cErr
      ((res.1.1, res.1.2.1, res.1.2.2),
       { h with regs := fun x => if x = ref then res.2 else h.regs x })

/-- Embeds `contextualScope.RegisterDestructionCallback` (scope source, lines
175 to 182): the method dereferences `ctx.Value(s.key)` without a nil guard,
so a nil context panics; a context without a registry under the key fails the
`ok` assertion and the method returns with no effect and no error (it has no
error return); otherwise the callback is appended to the found registry. -/
def contextualRegisterDestructionCallback (key : Nat) (h : CtxHeap)
    (ctx : Option Ctx) (cb : Nat) : RegisterOutcome × CtxHeap :=
  match ctx with
  | none => (.panicked, h)
  | some c =>
    match ctxValue c key with
    | none => (.noop, h)
    | some ref =>
      (.stored,
       { h with regs := fun x =>
          if x = ref then registerDestructionCallback (h.regs ref) cb else h.regs x })

/-- Embeds `WithContextualScopeEnabled`: derives a child context carrying a
fresh instance registry under the key. -/
def WithContextualScopeEnabled (h : CtxHeap) (c : Ctx) (key : Nat) :
    Ctx × CtxHeap :=
  ((key, h.next) :: c,
   { regs := fun x => if x = h.next then newInstanceRegistry else h.regs x,
     next := h.next + 1 })

/-- Embeds `ShutdownContextualScope`: if a registry is found under the key its
`shutdown` runs (returning the ghost list of invoked callbacks); otherwise
nothing happens.  The registry stays referenced by the context. -/
def ShutdownContextualScope (h : CtxHeap) (c : Ctx) (key : Nat) :
    List Nat × CtxHeap :=
  match ctxValue c key with
  | none => ([], h)
  | some ref =>
    let r := shutdown (h.regs ref)
    (r.1, { h with regs := fun x => if x = ref then r.2 else h.regs x })

/-- The per-qualifier map of the binding table
(`map[string][]*binding`), as an association list in key insertion order. -/
abbrev QualMap := List (String × List Binding)

/-- The binding table (`map[reflect.Type]map[string][]*binding`), as an
association list in key insertion order. -/
abbrev BindTable := List (RType × QualMap)

/-- Appends a binding to its qualifier's list
(`injector.bindings[t][q] = append(injector.bindings[t][q], b)`). -/
def qualInsert (m : QualMap) (q : String) (b : Binding) : QualMap :=
  match m with
  | [] => [(q, [b])]
  | (q1, l) :: rest =>
    if q1 = q then (q1, l ++ [b]) :: rest else (q1, l) :: qualInsert rest q b

/-- Inserts a binding into the table under its registration type and
qualifier, creating the inner map when absent (NewInjector, lines 53 to 59). -/
def tableInsert (tbl : BindTable) (b : Binding) : BindTable :=
  match tbl with
  | [] => [(b.typeof, [(b.annotatedWith, [b])])]
  | (t, m) :: rest =>
    if t = b.typeof then (t, qualInsert m b.annotatedWith b) :: rest
    else (t, m) :: tableInsert rest b

/-- Builds the table from the configured binding set, in the iteration order
of the `map[*binding]bool` set (Go map iteration order is arbitrary; the
input list is one such order). -/
def buildTable (bs : List Binding) : BindTable :=
  bs.foldl tableInsert []

/-- Map assignment `tbl[t] = m`: replaces the entry when the key is present,
otherwise adds it. -/
def tableSet (tbl : BindTable) (t : RType) (m : QualMap) : BindTable :=
  match tbl with
  | [] => [(t, m)]
  | (t1, m1) :: rest =>
    if t1 = t then (t, m) :: rest else (t1, m1) :: tableSet rest t m

/-- Table lookup `injector.bindings[t][q]`; a missing outer or inner entry is
the empty list. -/
def lookupTable (tbl : BindTable) (t : RType) (q : String) : List Binding :=
  match tbl.find? (fun e => decide (e.1 = t)) with
  | none => []
  | some e =>
    match e.2.find? (fun e2 => decide (e2.1 = q)) with
    | none => []
    | some e2 => e2.2

/-- All bindings of a per-qualifier map, in entry order. -/
def qualFlat (m : QualMap) : List Binding :=
  (m.map (fun e2 => e2.2)).flatten

/-- All bindings held by the table, in entry order: the flattening iterated by
`eagerlyCreateSingletons` (in Go the two outer levels iterate in arbitrary
map order; the association lists fix one such order). -/
def allTableBindings (tbl : BindTable) : List Binding :=
  (tbl.map (fun e => qualFlat e.2)).flatten

/-- Embeds `Injector`: the binding table and the scope table (`scopes` is the
`map[string]Scope`). -/
structure Injector where
  bindings : BindTable
  scopes : String → Option ScopeV

/-- Embeds `Injector.findBindingsForAnnotatedType` (the copy the source makes
is irrelevant to values). -/
def findBindingsForAnnotatedType (inj : Injector) (t : RType) (ann : String) :
    List Binding :=
  lookupTable inj.bindings t ann

/-- Embeds `isProviderType`: a function type of shape
`func(InvocationContext) (T, error)`. -/
def isProviderType : RType → Bool
  | .provider _ => true
  | _ => false

/-- Slice-kind test (`t.Kind() == reflect.Slice`). -/
def isSliceType : RType → Bool
  | .slice _ => true
  | _ => false

/-- Embeds `binding.create` for leaf providers: the provider produces
`provValue`, and a provider error is wrapped as
`provider for type %q returned error: %w`. -/
def bindingCreate (b : Binding) : RValue × Option EngineErr :=
  (b.provValue, b.provErr.map (fun e => EngineErr.providerReturned e))

/-- Approximates `reflect.Value.IsZero` on the modelled values: a `prim` is
zero when its payload is the zero value; the invalid value is treated as zero
(the source only evaluates the test after a nil creation error); the
remaining values (injector reference, provider closure, context value) are
never zero. -/
def isZeroRV : RValue → Bool
  | .prim n => n == 0
  | .invalid => true
  | _ => false

/-- The guard of the destruction-callback registration inside the instance
creator closure of `getScopedInstanceFromBinding`:
`creationError == nil && destroyMethod != nil && !val.IsZero()`. -/
def destroyWanted (b : Binding) (v : RValue) (e : Option EngineErr) : Bool :=
  e.isNone && b.destroyId.isSome && !(isZeroRV v)

/-- Mutable engine state threaded through resolution: the singleton scope's
registry, the heap of contextual registries, and the ghost log of binding
identities whose provider actually ran (one entry per invocation). -/
structure IState where
  singletonReg : Reg
  ctxHeap : CtxHeap
  createLog : List Nat

/-- Embeds `Injector.getScopedInstanceFromBinding`: look the scope up by name
(unknown scope is an injection error), then ask the scope to resolve the
binding with a creator that runs `binding.create` and, when the guard holds,
registers the destruction callback with the same scope. -/
def getScopedInstanceFromBinding (inj : Injector) (st : IState)
    (ctx : Option Ctx) (b : Binding) : (RValue × Option EngineErr) × IState :=
  match inj.scopes b.scope with
  | none =>
    ((.invalid, some (.injection b.typeof b.annotatedWith (.unknownScope b.scope))), st)
  | some sv =>
    let created := bindingCreate b
    match sv with
    | .perLookUp =>
      ((created.1, created.2), { st with createLog := st.createLog ++ [b.id] })
    | .singleton =>
      let res := resolveBinding st.singletonReg b.id created.1 created.2
      let reg1 :=
        if res.1.2.2 && destroyWanted b created.1 created.2 then
          registerDestructionCallback res.2 (b.destroyId.getD 0)
        else res.2
      ((res.1.1, res.1.2.1),
       { st with singletonReg := reg1,
                 createLog := if res.1.2.2 then st.createLog ++ [b.id] else st.createLog })
    | .contextual key =>
      let res := contextualResolveBinding key st.ctxHeap ctx b.id created.1 created.2
      let heap1 :=
        if res.1.2.2 && destroyWanted b created.1 created.2 then
          (contextualRegisterDestructionCallback key res.2 ctx (b.destroyId.getD 0)).2
        else res.2
      ((res.1.1, res.1.2.1),
       { st with ctxHeap := heap1,
                 createLog := if res.1.2.2 then st.createLog ++ [b.id] else st.createLog })

/-- The loop of the slice branch of `getInstanceOfAnnotatedType`: resolve each
matching binding through its scope, in table order, aborting on the first
error. -/
def resolveAll (inj : Injector) (ctx : Option Ctx) :
    List Binding → IState → (List RValue × Option EngineErr) × IState
  | [], st => (([], none), st)
  | b :: bs, st =>
    let r := getScopedInstanceFromBinding inj st ctx b
    match r.1.2 with
    | some e => (([], some e), r.2)
    | none =>
      let rest := resolveAll inj ctx bs r.2
      ((r.1.1 :: rest.1.1, rest.1.2), rest.2)

/-- Embeds `Injector.getInstanceOfAnnotatedType` (injector.go, lines 199 to
243), branch for branch: slice requests gather all matching bindings for the
element type; otherwise more than one match is ambiguous, exactly one match
resolves through its scope, and with no match the provider shape, the
context type, the optional marker and the not-found error are tried in the
source's order. -/
def getInstanceOfAnnotatedType (inj : Injector) (st : IState) (ctx : Option Ctx)
    (t : RType) (ann : String) (optional : Bool) :
    (RResult × Option EngineErr) × IState :=
  match t with
  | .slice e =>
    let bs := findBindingsForAnnotatedType inj e ann
    if bs.length > 0 then
      let r := resolveAll inj ctx bs st
      match r.1.2 with
      | none => ((.coll r.1.1, none), r.2)
      | some err => ((.single .invalid, some err), r.2)
    else if optional then ((.coll [], none), st)
    else ((.coll [], some (.injection e ann .notFoundAtLeastOne)), st)
  | _ =>
    match findBindingsForAnnotatedType inj t ann with
    | _ :: _ :: _ => ((.single .invalid, some (.injection t ann .multipleBindings)), st)
    | [b] =>
      let r := getScopedInstanceFromBinding inj st ctx b
      ((.single r.1.1, r.1.2), r.2)
    | [] =>
      if isProviderType t then ((.single (.providerVal t ann optional), none), st)
      else if t = .invocationCtx then ((.single .ctxVal, none), st)
      else if optional then ((.single .invalid, none), st)
      else ((.single .invalid, some (.injection t ann .notFoundOne)), st)

/-- The implicit binding for the `*Injector` type installed by `NewInjector`
(injector.go, lines 44 to 50): Singleton scope, empty qualifier, provider
returning the injector itself.  Its `id` 0 models the fresh `&binding{...}`
pointer, distinct from every configured binding. -/
def injectorBinding : Binding :=
  { id := 0, typeof := .injectorT, annotatedWith := "", scope := SingletonScope,
    provValue := .injectorRef, provErr := none, destroyId := none }

/-- The loop of `eagerlyCreateSingletons` over the flattened table: every
binding whose scope name is Singleton is resolved; the first failure aborts
with `failed to get singleton instance: %w`. -/
def eagerLoop (inj : Injector) : List Binding → IState → Option EngineErr × IState
  | [], st => (none, st)
  | b :: bs, st =>
    if b.scope = SingletonScope then
      let r := getScopedInstanceFromBinding inj st none b
      match r.1.2 with
      | none => eagerLoop inj bs r.2
      | some e => (some (.failedEagerSingleton e), r.2)
    else eagerLoop inj bs st

/-- Embeds `Injector.eagerlyCreateSingletons`. -/
def eagerlyCreateSingletons (inj : Injector) (st : IState) :
    Option EngineErr × IState :=
  eagerLoop inj (allTableBindings inj.bindings) st

/-- The injector's fresh runtime state at construction: a new singleton
registry, no contextual registries, empty creation log. -/
def initialState : IState :=
  { singletonReg := newInstanceRegistry,
    ctxHeap := { regs := fun _ => newInstanceRegistry, next := 0 },
    createLog := [] }

/-- The scope table after `NewInjector` installs the built-in scopes: the
assignments `mod.scopes[Singleton]` and `mod.scopes[PerLookUp]` happen after
the options run, so they override user registrations of those names. -/
def buildScopes (user : String → Option ScopeV) : String → Option ScopeV :=
  fun s =>
    if s = SingletonScope then some .singleton
    else if s = PerLookUpScope then some .perLookUp
    else user s

/-- Embeds `NewInjector` from the point where the configuration has produced
the binding set (the option/module plumbing that builds the set is declarative
configuration outside this model): build the table from the set in iteration
order, overwrite the `*Injector` entry with the implicit self-binding, install
the built-in scopes, then eagerly create singletons; on failure return a nil
injector with the wrapped error.  `builtInjector` is the injector value before
eager creation. -/
def builtInjector (bs : List Binding) (user : String → Option ScopeV) : Injector :=
  { bindings := tableSet (buildTable bs) .injectorT [("", [injectorBinding])],
    scopes := buildScopes user }

def NewInjector (bs : List Binding) (user : String → Option ScopeV) :
    (Option Injector × Option EngineErr) × IState :=
  let inj : Injector := builtInjector bs user
  let r := eagerlyCreateSingletons inj initialState
  match r.1 with
  | none => ((some inj, none), r.2)
  | some e => ((none, some e), r.2)

end Engine

section WitnessData

/-- A concrete Singleton-scoped binding used by witnesses. -/
def wBindingS : Binding :=
  { id := 3, typeof := .base 1, annotatedWith := "", scope := SingletonScope,
    provValue := .prim 33, provErr := none, destroyId := none }

/-- A concrete PerLookUp-scoped binding of the same type and qualifier. -/
def wBinding2 : Binding :=
  { id := 2, typeof := .base 1, annotatedWith := "", scope := PerLookUpScope,
    provValue := .prim 22, provErr := none, destroyId := none }

/-- A concrete injector with the Singleton-scoped and the PerLookUp-scoped
binding registered in order. -/
def wMixedInjector : Injector :=
  { bindings := buildTable [wBindingS, wBinding2],
    scopes := buildScopes (fun _ => none) }

/-- A concrete injector with no bindings. -/
def wEmptyInjector : Injector :=
  { bindings := [], scopes := buildScopes (fun _ => none) }

/-- A concrete Singleton-scoped binding used by the NewInjector witnesses. -/
def wSingleton : Binding :=
  { id := 1, typeof := .base 2, annotatedWith := "", scope := SingletonScope,
    provValue := .prim 7, provErr := none, destroyId := none }

end WitnessData

section RegistryLemmas

variable {B I E C : Type} [DecidableEq B] [Inhabited I]

theorem runResolve_length (r : InstanceRegistry B I C) (cs : List (RCall B I E)) :
    (runResolve r cs).1.length = cs.length := by
  induction cs generalizing r with
  | nil => rfl
  | cons c cs ih => simp [runResolve, ih]

theorem runResolve_append (r : InstanceRegistry B I C) (xs ys : List (RCall B I E)) :
    runResolve r (xs ++ ys) =
      ((runResolve r xs).1 ++ (runResolve (runResolve r xs).2 ys).1,
       (runResolve (runResolve r xs).2 ys).2) := by
  induction xs generalizing r with
  | nil => simp [runResolve]
  | cons x xs ih => simp [runResolve, ih]

theorem lock_runResolve (r : InstanceRegistry B I C) (cs : List (RCall B I E)) (b : B) :
    ((runResolve r cs).2).instanceLock b =
      (r.instanceLock b || cs.any (fun c => decide (c.bnd = b))) := by
  induction cs generalizing r with
  | nil => simp [runResolve]
  | cons c cs ih =>
    simp only [runResolve, List.any_cons]
    unfold resolveBinding
    by_cases h : r.instanceLock c.bnd
    · simp only [h, if_pos]
      rw [ih]
      by_cases hb : c.bnd = b
      · subst hb; simp [h]
      · simp [hb]
    · simp only [h, Bool.false_eq_true, if_neg, not_false_iff]
      rw [ih]
      by_cases hb : b = c.bnd
      · subst hb; simp
      · simp only [if_neg hb]
        have : ¬ c.bnd = b := fun hh => hb hh.symm
        simp [this]

theorem instances_runResolve_locked (r : InstanceRegistry B I C)
    (cs : List (RCall B I E)) (b : B) (hl : r.instanceLock b = true) :
    ((runResolve r cs).2).instances b = r.instances b := by
  induction cs generalizing r with
  | nil => rfl
  | cons c cs ih =>
    simp only [runResolve]
    unfold resolveBinding
    by_cases h : r.instanceLock c.bnd
    · simp only [h, if_true]
      exact ih r hl
    · have hb : ¬ b = c.bnd := by
        intro hh; apply h; rw [← hh]; exact hl
      simp only [h]
      have hl' : (fun x => if x = c.bnd then true else r.instanceLock x) b = true := by
        simp [if_neg hb, hl]
      rw [ih _ hl']
      simp [if_neg hb]

theorem instances_runResolve (r : InstanceRegistry B I C)
    (cs : List (RCall B I E)) (b : B) (hl : r.instanceLock b = false) :
    ((runResolve r cs).2).instances b =
      match cs.find? (fun c => decide (c.bnd = b)) with
      | some c => some c.inst
      | none => r.instances b := by
  induction cs generalizing r with
  | nil => rfl
  | cons c cs ih =>
    simp only [runResolve]
    unfold resolveBinding
    by_cases hb : c.bnd = b
    · subst hb
      rw [List.find?_cons_of_pos _ (by simp)]
      rw [if_neg (show ¬ (r.instanceLock c.bnd = true) by simp [hl])]
      rw [instances_runResolve_locked (E := E) _ cs c.bnd (by simp)]
      simp
    · rw [List.find?_cons_of_neg _ (by simp [hb])]
      have hb' : ¬ b = c.bnd := fun hh => hb hh.symm
      by_cases h : r.instanceLock c.bnd
      · rw [if_pos h]
        exact ih r hl
      · rw [if_neg h]
        rw [ih _ (by simp [if_neg hb', hl])]
        cases hfind : cs.find? (fun c => decide (c.bnd = b)) with
        | none => simp [if_neg hb']
        | some d => simp

theorem invoked_false_of_locked (r : InstanceRegistry B I C)
    (cs : List (RCall B I E)) (b : B) (hl : r.instanceLock b = true) :
    ∀ s ∈ (runResolve r cs).1, s.bnd = b → s.invoked = false := by
  induction cs generalizing r with
  | nil => intro s hs; simp [runResolve] at hs
  | cons c cs ih =>
    intro s hs hsb
    simp only [runResolve, List.mem_cons] at hs
    unfold resolveBinding at hs
    by_cases h : r.instanceLock c.bnd
    · rw [if_pos h] at hs
      rcases hs with hs | hs
      · subst hs; rfl
      · exact ih r hl s hs hsb
    · rw [if_neg h] at hs
      rcases hs with hs | hs
      · subst hs
        have hcb : c.bnd = b := hsb
        have hct : r.instanceLock c.bnd = true := by rw [hcb]; exact hl
        exact absurd hct h
      · have hcb : ¬ b = c.bnd := by
          intro hh; apply h; rw [← hh]; exact hl
        exact ih _ (by simp [if_neg hcb, hl]) s hs hsb

theorem countInvoked_le_one (r : InstanceRegistry B I C)
    (cs : List (RCall B I E)) (b : B) (hl : r.instanceLock b = false) :
    countInvoked b (runResolve r cs).1 ≤ 1 := by
  induction cs generalizing r with
  | nil => simp [runResolve, countInvoked]
  | cons c cs ih =>
    simp only [runResolve]
    unfold resolveBinding
    by_cases h : r.instanceLock c.bnd
    · rw [if_pos h]
      simp only [countInvoked, List.countP_cons]
      simpa using ih r hl
    · rw [if_neg h]
      by_cases hb : c.bnd = b
      · subst hb
        simp only [countInvoked, List.countP_cons]
        have hrest : List.countP (fun s => decide (s.bnd = c.bnd) && s.invoked)
            (runResolve { r with
              instanceLock := fun x => if x = c.bnd then true else r.instanceLock x,
              instances := fun x => if x = c.bnd then some c.inst else r.instances x }
              cs).1 = 0 := by
          apply List.countP_eq_zero.mpr
          intro s hs
          by_cases hsb : s.bnd = c.bnd
          · have hinv := invoked_false_of_locked (E := E) _ cs c.bnd (by simp) s hs hsb
            simp [hinv]
          · simp [hsb]
        rw [hrest]
        simp
      · have hb' : ¬ b = c.bnd := fun hh => hb hh.symm
        simp only [countInvoked, List.countP_cons]
        have := ih { r with
            instanceLock := fun x => if x = c.bnd then true else r.instanceLock x,
            instances := fun x => if x = c.bnd then some c.inst else r.instances x }
          (by simp [if_neg hb', hl])
        simp only [countInvoked] at this
        simpa [hb] using this

end RegistryLemmas

section ShutdownLemmas

variable {B I C : Type}

theorem destroyMethods_foldl_register (r : InstanceRegistry B I C) (cs : List C) :
    (cs.foldl registerDestructionCallback r).destroyMethods = r.destroyMethods ++ cs := by
  induction cs generalizing r with
  | nil => simp
  | cons c cs ih =>
    simp only [List.foldl_cons, ih, registerDestructionCallback]
    simp

theorem shutdownLoop_eq_reverse [Inhabited C] (ds : List C) (n : Nat)
    (h : n ≤ ds.length) :
    shutdownLoop ds n = (ds.take n).reverse := by
  induction n with
  | zero => simp [shutdownLoop]
  | succ i ih =>
    have hi : i < ds.length := h
    have htake : List.take (i + 1) ds = List.take i ds ++ [ds[i]] := by
      rw [List.take_succ, List.getElem?_eq_getElem hi]
      simp
    rw [shutdownLoop, ih (Nat.le_of_succ_le h), htake, List.reverse_append]
    simp [List.getD, List.getElem?_eq_getElem hi]

end ShutdownLemmas

section RegistryClaims

variable {B I E C : Type} [DecidableEq B] [Inhabited I]

/-- C1: over any sequence of `resolveBinding` calls on a fresh instance
registry, the creator supplied for a binding is invoked at most once, and
every call after the first for the same binding does not invoke its creator
and returns the instance stored by the first call (with a nil error). -/
theorem resolveBinding_at_most_once (calls pre post : List (RCall B I E))
    (c : RCall B I E) (b : B) (hdec : calls = pre ++ c :: post) (hb : c.bnd = b)
    (hseen : pre.any (fun d => decide (d.bnd = b)) = true) :
    countInvoked b (runResolve (newInstanceRegistry : InstanceRegistry B I C) calls).1 ≤ 1 ∧
    ∃ v, firstInst b pre = some v ∧
      (runResolve (newInstanceRegistry : InstanceRegistry B I C) calls).1[pre.length]? =
        some ⟨b, v, none, false⟩ := by
  constructor
  · exact countInvoked_le_one _ calls b rfl
  · subst hb
    subst hdec
    cases hf : pre.find? (fun d => decide (d.bnd = c.bnd)) with
    | none =>
      rw [List.find?_eq_none] at hf
      rw [List.any_eq_true] at hseen
      obtain ⟨d, hd, hdb⟩ := hseen
      exact absurd hdb (by simpa using hf d hd)
    | some d0 =>
      refine ⟨d0.inst, ?_, ?_⟩
      · simp [firstInst, hf]
      · rw [runResolve_append]
        have hlen : ((runResolve (newInstanceRegistry : InstanceRegistry B I C) pre).1).length
            = pre.length := runResolve_length _ _
        rw [List.getElem?_append_right (by omega)]
        rw [hlen, Nat.sub_self]
        have hlock : ((runResolve (newInstanceRegistry : InstanceRegistry B I C) pre).2).instanceLock c.bnd = true := by
          rw [lock_runResolve]
          simp [newInstanceRegistry, hseen]
        have hinst : ((runResolve (newInstanceRegistry : InstanceRegistry B I C) pre).2).instances c.bnd = some d0.inst := by
          rw [instances_runResolve _ _ _ rfl, hf]
        simp only [runResolve]
        unfold resolveBinding
        rw [if_pos hlock, hinst]
        simp

/-- Witness for C1: two successive calls for binding 0 on a fresh registry;
the second call does not invoke its creator and returns the first call's
instance 5 with a nil error. -/
theorem resolveBinding_at_most_once_witness :
    (([⟨0, 5, none⟩, ⟨0, 7, some 3⟩] : List (RCall Nat Nat Nat)) =
        [⟨0, 5, none⟩] ++ (⟨0, 7, some 3⟩ : RCall Nat Nat Nat) :: []) ∧
    (⟨0, 7, some 3⟩ : RCall Nat Nat Nat).bnd = 0 ∧
    (([⟨0, 5, none⟩] : List (RCall Nat Nat Nat)).any (fun d => decide (d.bnd = 0)) = true) ∧
    (countInvoked 0 (runResolve (newInstanceRegistry : InstanceRegistry Nat Nat Nat)
        [⟨0, 5, none⟩, ⟨0, 7, some 3⟩]).1 ≤ 1 ∧
      ∃ v, firstInst 0 ([⟨0, 5, none⟩] : List (RCall Nat Nat Nat)) = some v ∧
        (runResolve (newInstanceRegistry : InstanceRegistry Nat Nat Nat)
            [⟨0, 5, none⟩, ⟨0, 7, some 3⟩]).1[([⟨0, 5, none⟩] : List (RCall Nat Nat Nat)).length]? =
          some ⟨0, v, none, false⟩) :=
  ⟨rfl, rfl, by decide,
    resolveBinding_at_most_once [⟨0, 5, none⟩, ⟨0, 7, some 3⟩] [⟨0, 5, none⟩] []
      ⟨0, 7, some 3⟩ 0 rfl rfl (by decide)⟩

/-- C2 counterexample: the creator of binding 0 fails with error 1 on the
first call; the second call for the same binding does not re-invoke the
creator but returns a nil error instead of the memoized failure, refuting the
claim that the second lookup returns the same non-nil error. -/
theorem memoized_error_counterexample :
    ((runResolve (newInstanceRegistry : InstanceRegistry Nat Nat Nat)
        [⟨0, 42, some 1⟩, ⟨0, 42, some 1⟩]).1.map (fun s => (s.err, s.invoked))) =
      [(some 1, true), (none, false)] := by decide

/-- C2 amended: in a Singleton or Contextual instance registry, a second
`resolveBinding` of a binding whose first creator invocation failed does not
re-invoke the creator, and returns the instance stored by the first call with
a nil error — the failure itself is not memoized and not returned again. -/
theorem second_resolve_after_failure (b : B) (i1 i2 : I) (e : E) (e2 : Option E) :
    (resolveBinding ((resolveBinding (newInstanceRegistry : InstanceRegistry B I C)
        b i1 (some e)).2) b i2 e2).1 = (i1, none, false) := by
  simp [resolveBinding, newInstanceRegistry]

end RegistryClaims

section ShutdownClaims

variable {B I C : Type} [Inhabited C]

/-- C5: for every instance registry with an empty callback list and every
sequence of teardown callbacks registered in order through
`registerDestructionCallback`, a single `shutdown` invokes exactly those
callbacks, each exactly once, in strict reverse registration order. -/
theorem shutdown_invokes_reverse_order
    (r0 : InstanceRegistry B I C) (cs : List C) (h : r0.destroyMethods = []) :
    (shutdown (cs.foldl registerDestructionCallback r0)).1 = cs.reverse := by
  unfold shutdown
  rw [destroyMethods_foldl_register, h, List.nil_append]
  rw [shutdownLoop_eq_reverse cs cs.length (le_refl _), List.take_length]

/-- Witness for C5: callbacks 1, 2, 3 registered in order on a fresh registry
are invoked in order 3, 2, 1 by `shutdown`. -/
theorem shutdown_invokes_reverse_order_witness :
    (newInstanceRegistry : InstanceRegistry Nat Nat Nat).destroyMethods = [] ∧
    (shutdown ([1, 2, 3].foldl registerDestructionCallback
        (newInstanceRegistry : InstanceRegistry Nat Nat Nat))).1 = [3, 2, 1] :=
  ⟨rfl, shutdown_invokes_reverse_order newInstanceRegistry [1, 2, 3] rfl⟩

/-- C6 counterexample: resolve binding 0 (memoizing instance 7), register a
callback, shut the registry down; the memoized value map still holds the
entry for binding 0, so it is not empty — `shutdown` clears only the callback
list. -/
theorem shutdown_leaves_value_map_counterexample :
    ¬ (∀ b : Nat,
        ((shutdown (registerDestructionCallback
            ((resolveBinding (newInstanceRegistry : InstanceRegistry Nat Nat Nat)
              0 7 (none : Option Nat)).2) 9)).2).instances b = none) :=
  fun hall => absurd (hall 0) (by decide)

/-- C6 amended: after `shutdown` returns, the teardown callback list is empty
(the memoized value map is retained), and consequently a second `shutdown` on
the same registry invokes no callback. -/
theorem shutdown_idempotent_callbacks (r : InstanceRegistry B I C) :
    ((shutdown r).2).destroyMethods = [] ∧ (shutdown ((shutdown r).2)).1 = [] :=
  ⟨rfl, rfl⟩

end ShutdownClaims

section ContextualClaims

/-- C3 counterexample: with a nil context, `RegisterDestructionCallback`
dereferences the nil context through `ctx.Value` and panics with a nil
pointer dereference, instead of failing with the scope-not-active error as
the claim states for every registry-less context including nil. -/
theorem register_callback_nil_ctx_counterexample :
    (contextualRegisterDestructionCallback 0
      ⟨fun _ => newInstanceRegistry, 0⟩ none 5).1 = RegisterOutcome.panicked := rfl

/-- C3 amended: for an execution context that carries no registry under the
scope's key, `ResolveBinding` fails immediately with the scope-not-active
error without invoking the creator (for a nil context as well);
`RegisterDestructionCallback` never stores the callback but raises no error:
with a non-nil context it returns silently, and with a nil context it
panics. -/
theorem contextual_scope_not_active (key bid cb : Nat) (h : CtxHeap) (c : Ctx)
    (i : RValue) (e : Option EngineErr) (hc : ctxValue c key = none) :
    contextualResolveBinding key h none bid i e =
        ((.invalid, some .scopeNotActive, false), h) ∧
    contextualResolveBinding key h (some c) bid i e =
        ((.invalid, some .scopeNotActive, false), h) ∧
    contextualRegisterDestructionCallback key h (some c) cb = (.noop, h) ∧
    contextualRegisterDestructionCallback key h none cb = (.panicked, h) := by
  refine ⟨rfl, ?_, ?_, rfl⟩
  · simp [contextualResolveBinding, hc]
  · simp [contextualRegisterDestructionCallback, hc]

/-- Witness for C3 at the empty context and a concrete heap. -/
theorem contextual_scope_not_active_witness :
    ctxValue [] 0 = none ∧
    (contextualResolveBinding 0 ⟨fun _ => newInstanceRegistry, 0⟩ none 1 (.prim 7) none =
        ((.invalid, some .scopeNotActive, false), (⟨fun _ => newInstanceRegistry, 0⟩ : CtxHeap)) ∧
      contextualResolveBinding 0 ⟨fun _ => newInstanceRegistry, 0⟩ (some []) 1 (.prim 7) none =
        ((.invalid, some .scopeNotActive, false), (⟨fun _ => newInstanceRegistry, 0⟩ : CtxHeap)) ∧
      contextualRegisterDestructionCallback 0 ⟨fun _ => newInstanceRegistry, 0⟩ (some []) 5 =
        (.noop, (⟨fun _ => newInstanceRegistry, 0⟩ : CtxHeap)) ∧
      contextualRegisterDestructionCallback 0 ⟨fun _ => newInstanceRegistry, 0⟩ none 5 =
        (.panicked, (⟨fun _ => newInstanceRegistry, 0⟩ : CtxHeap))) :=
  ⟨rfl, contextual_scope_not_active 0 1 5 ⟨fun _ => newInstanceRegistry, 0⟩ [] (.prim 7) none rfl⟩

/-- C4 counterexample: enter a contextual scope (key 5), resolve binding 1
(creator yields value 7), shut the scope down for that context, then resolve
binding 1 again with the same context: the call succeeds with the memoized
instance 7 and a nil error instead of failing with scope-not-active. -/
theorem resolve_after_scope_shutdown_counterexample :
    (let h0 : CtxHeap := ⟨fun _ => newInstanceRegistry, 0⟩
     let enter := WithContextualScopeEnabled h0 [] 5
     let r1 := contextualResolveBinding 5 enter.2 (some enter.1) 1 (.prim 7) none
     let sh := ShutdownContextualScope r1.2 enter.1 5
     (contextualResolveBinding 5 sh.2 (some enter.1) 1 (.prim 9) none).1) =
      (.prim 7, none, false) := by decide

/-- C4 amended: after entering a contextual scope, resolving a binding under
it, and shutting the scope down for that same context, a subsequent
resolution with that context still succeeds: the registry remains referenced
by the context (`ShutdownContextualScope` only runs and clears teardown
callbacks), so the instance memoized before shutdown is returned with a nil
error and the creator is not re-invoked. -/
theorem resolve_after_scope_shutdown (h0 : CtxHeap) (c0 : Ctx) (key bid : Nat)
    (v1 v2 : RValue) (e1 e2 : Option EngineErr) :
    (let enter := WithContextualScopeEnabled h0 c0 key
     let r1 := contextualResolveBinding key enter.2 (some enter.1) bid v1 e1
     let sh := ShutdownContextualScope r1.2 enter.1 key
     (contextualResolveBinding key sh.2 (some enter.1) bid v2 e2).1) =
      (v1, none, false) := by
  have hfind : ctxValue ((key, h0.next) :: c0) key = some h0.next := by
    unfold ctxValue
    rw [List.find?_cons_of_pos _ (by simp)]
    rfl
  simp only [WithContextualScopeEnabled, contextualResolveBinding,
    ShutdownContextualScope, hfind]
  simp [resolveBinding, newInstanceRegistry, shutdown]

end ContextualClaims

section EngineClaims

theorem getScoped_singleton_fresh (inj : Injector) (st : IState) (ctx : Option Ctx)
    (b : Binding)
    (hsv : inj.scopes b.scope = some ScopeV.singleton)
    (he : b.provErr = none)
    (hfl : st.singletonReg.instanceLock b.id = false) :
    (getScopedInstanceFromBinding inj st ctx b).1 = (b.provValue, none) ∧
    (getScopedInstanceFromBinding inj st ctx b).2.createLog = st.createLog ++ [b.id] ∧
    (∀ i, (getScopedInstanceFromBinding inj st ctx b).2.singletonReg.instanceLock i =
      (if i = b.id then true else st.singletonReg.instanceLock i)) ∧
    (∀ i, (getScopedInstanceFromBinding inj st ctx b).2.singletonReg.instances i =
      (if i = b.id then some b.provValue else st.singletonReg.instances i)) := by
  by_cases hd : destroyWanted b b.provValue none
  · refine ⟨?_, ?_, ?_, ?_⟩ <;>
      simp [getScopedInstanceFromBinding, hsv, bindingCreate, he, resolveBinding, hfl,
        registerDestructionCallback, hd]
  · refine ⟨?_, ?_, ?_, ?_⟩ <;>
      simp [getScopedInstanceFromBinding, hsv, bindingCreate, he, resolveBinding, hfl,
        registerDestructionCallback, hd]

theorem getScoped_singleton_memoized (inj : Injector) (st : IState) (ctx : Option Ctx)
    (b : Binding)
    (hsv : inj.scopes b.scope = some ScopeV.singleton)
    (he : b.provErr = none)
    (hl : st.singletonReg.instanceLock b.id = true)
    (hv : st.singletonReg.instances b.id = some b.provValue) :
    getScopedInstanceFromBinding inj st ctx b = ((b.provValue, none), st) := by
  simp [getScopedInstanceFromBinding, hsv, bindingCreate, he, resolveBinding, hl, hv]

theorem resolveAll_produces (inj : Injector) (ctx : Option Ctx)
    (bs : List Binding) (st : IState)
    (hids : (bs.map (fun b => b.id)).Nodup)
    (hb : ∀ b ∈ bs, b.provErr = none ∧
      (inj.scopes b.scope = some ScopeV.perLookUp ∨
       (inj.scopes b.scope = some ScopeV.singleton ∧
        (st.singletonReg.instanceLock b.id = false ∨
         (st.singletonReg.instanceLock b.id = true ∧
          st.singletonReg.instances b.id = some b.provValue))))) :
    (resolveAll inj ctx bs st).1 = (bs.map (fun b => b.provValue), none) := by
  revert hids hb
  induction bs generalizing st with
  | nil => intro _ _; rfl
  | cons b bs ih =>
    intro hids hb
    obtain ⟨he, hsc⟩ := hb b (List.mem_cons_self b bs)
    rw [List.map_cons] at hids
    have hbid : b.id ∉ bs.map (fun x => x.id) := (List.nodup_cons.mp hids).1
    have hrest := fun (d : Binding) (hd : d ∈ bs) => hb d (List.mem_cons_of_mem _ hd)
    rcases hsc with hplu | ⟨hsg, hmem⟩
    · have hg : getScopedInstanceFromBinding inj st ctx b =
          ((b.provValue, none), { st with createLog := st.createLog ++ [b.id] }) := by
        simp [getScopedInstanceFromBinding, hplu, bindingCreate, he]
      have ihr := ih { st with createLog := st.createLog ++ [b.id] }
        (List.nodup_cons.mp hids).2
        (fun d hd => hrest d hd)
      simp [resolveAll, hg, ihr]
    · rcases hmem with hfresh | ⟨hl, hv⟩
      · obtain ⟨hres, hlog, hlock, hinst⟩ :=
          getScoped_singleton_fresh inj st ctx b hsg he hfresh
        have ihr := ih (getScopedInstanceFromBinding inj st ctx b).2
          (List.nodup_cons.mp hids).2
          (fun d hd => by
            obtain ⟨hde, hdsc⟩ := hrest d hd
            refine ⟨hde, ?_⟩
            rcases hdsc with h | ⟨h1, h2⟩
            · exact Or.inl h
            · refine Or.inr ⟨h1, ?_⟩
              have hne : d.id ≠ b.id := fun hh =>
                hbid (by rw [← hh]; exact List.mem_map_of_mem _ hd)
              rcases h2 with h2 | ⟨h2a, h2b⟩
              · exact Or.inl (by rw [hlock, if_neg hne]; exact h2)
              · exact Or.inr ⟨by rw [hlock, if_neg hne]; exact h2a,
                  by rw [hinst, if_neg hne]; exact h2b⟩)
        simp [resolveAll, hres, ihr]
      · have hg := getScoped_singleton_memoized inj st ctx b hsg he hl hv
        have ihr := ih st (List.nodup_cons.mp hids).2 (fun d hd => hrest d hd)
        simp [resolveAll, hg, ihr]

/-- C7: for a slice-typed request with element type `e` and qualifier `ann`,
each matching binding being resolved through the PerLookUp or the Singleton
scope (the two policies a `Provide` configuration yields) with a succeeding
factory — a Singleton-scoped match being either not yet constructed or
already memoized with its factory's value, and binding identities pairwise
distinct, as Go binding pointers are: when at least one binding matches, the
result is a collection with exactly one instance produced per matching
binding, in the table order of the bindings; when no binding matches and the
request is optional, the result is an empty collection with no error; when no
binding matches and the request is not optional, resolution fails with the
"did not found binding, expected at least one" injection error. -/
theorem slice_resolution (inj : Injector) (st : IState) (ctx : Option Ctx)
    (e : RType) (ann : String) (opt : Bool)
    (hids : ((findBindingsForAnnotatedType inj e ann).map (fun b => b.id)).Nodup)
    (hb : ∀ b ∈ findBindingsForAnnotatedType inj e ann, b.provErr = none ∧
      (inj.scopes b.scope = some ScopeV.perLookUp ∨
       (inj.scopes b.scope = some ScopeV.singleton ∧
        (st.singletonReg.instanceLock b.id = false ∨
         (st.singletonReg.instanceLock b.id = true ∧
          st.singletonReg.instances b.id = some b.provValue))))) :
    (findBindingsForAnnotatedType inj e ann ≠ [] →
      (getInstanceOfAnnotatedType inj st ctx (RType.slice e) ann opt).1 =
        (RResult.coll ((findBindingsForAnnotatedType inj e ann).map
          (fun b => b.provValue)), none)) ∧
    (findBindingsForAnnotatedType inj e ann = [] → opt = true →
      getInstanceOfAnnotatedType inj st ctx (RType.slice e) ann opt =
        ((RResult.coll [], none), st)) ∧
    (findBindingsForAnnotatedType inj e ann = [] → opt = false →
      getInstanceOfAnnotatedType inj st ctx (RType.slice e) ann opt =
        ((RResult.coll [], some (.injection e ann .notFoundAtLeastOne)), st)) := by
  refine ⟨?_, ?_, ?_⟩
  · intro hne
    have hlen : (findBindingsForAnnotatedType inj e ann).length > 0 :=
      List.length_pos.mpr hne
    have hra := resolveAll_produces inj ctx (findBindingsForAnnotatedType inj e ann) st
      hids hb
    simp [getInstanceOfAnnotatedType, hlen, hra]
  · intro h0 hopt
    subst hopt
    simp [getInstanceOfAnnotatedType, h0]
  · intro h0 hopt
    subst hopt
    simp [getInstanceOfAnnotatedType, h0]

/-- Witness for C7: a Singleton-scoped binding (against the fresh registry)
and a PerLookUp binding of type `base 1` yield the collection of their two
instances in table order; with no binding, the optional request yields an
empty collection and the non-optional request the at-least-one error. -/
theorem slice_resolution_witness :
    (((findBindingsForAnnotatedType wMixedInjector (.base 1) "").map
      (fun b => b.id)).Nodup) ∧
    (∀ b ∈ findBindingsForAnnotatedType wMixedInjector (.base 1) "",
      b.provErr = none ∧
      (wMixedInjector.scopes b.scope = some ScopeV.perLookUp ∨
       (wMixedInjector.scopes b.scope = some ScopeV.singleton ∧
        (initialState.singletonReg.instanceLock b.id = false ∨
         (initialState.singletonReg.instanceLock b.id = true ∧
          initialState.singletonReg.instances b.id = some b.provValue))))) ∧
    ((findBindingsForAnnotatedType wMixedInjector (.base 1) "" ≠ [] →
      (getInstanceOfAnnotatedType wMixedInjector initialState none
        (RType.slice (.base 1)) "" false).1 =
        (RResult.coll ((findBindingsForAnnotatedType wMixedInjector (.base 1) "").map
          (fun b => b.provValue)), none)) ∧
    (findBindingsForAnnotatedType wMixedInjector (.base 1) "" = [] → false = true →
      getInstanceOfAnnotatedType wMixedInjector initialState none
        (RType.slice (.base 1)) "" false = ((RResult.coll [], none), initialState)) ∧
    (findBindingsForAnnotatedType wMixedInjector (.base 1) "" = [] → false = false →
      getInstanceOfAnnotatedType wMixedInjector initialState none
        (RType.slice (.base 1)) "" false =
        ((RResult.coll [], some (.injection (.base 1) "" .notFoundAtLeastOne)),
          initialState))) :=
  ⟨by decide, by decide,
    slice_resolution wMixedInjector initialState none (.base 1) "" false
      (by decide) (by decide)⟩

/-- C8: for a non-slice, non-provider, non-context type with zero matching
bindings, the non-optional request fails with the "did not found binding,
expected one" injection error, while the identical optional request returns
the invalid (absent) value with no error. -/
theorem zero_bindings_resolution (inj : Injector) (st : IState) (ctx : Option Ctx)
    (t : RType) (ann : String)
    (h1 : isSliceType t = false) (h2 : isProviderType t = false)
    (h3 : t ≠ RType.invocationCtx)
    (h0 : findBindingsForAnnotatedType inj t ann = []) :
    getInstanceOfAnnotatedType inj st ctx t ann false =
      ((.single .invalid, some (.injection t ann .notFoundOne)), st) ∧
    getInstanceOfAnnotatedType inj st ctx t ann true =
      ((.single .invalid, none), st) := by
  cases t with
  | slice e => simp [isSliceType] at h1
  | provider e => simp [isProviderType] at h2
  | invocationCtx => exact absurd rfl h3
  | base n =>
    constructor <;> simp [getInstanceOfAnnotatedType, h0, isProviderType]
  | injectorT =>
    constructor <;> simp [getInstanceOfAnnotatedType, h0, isProviderType]

/-- Witness for C8 at the empty injector and type `base 0`. -/
theorem zero_bindings_resolution_witness :
    isSliceType (.base 0) = false ∧
    isProviderType (.base 0) = false ∧
    (RType.base 0 ≠ RType.invocationCtx) ∧
    findBindingsForAnnotatedType wEmptyInjector (.base 0) "" = [] ∧
    (getInstanceOfAnnotatedType wEmptyInjector initialState none (.base 0) "" false =
        ((.single .invalid, some (.injection (.base 0) "" .notFoundOne)), initialState) ∧
      getInstanceOfAnnotatedType wEmptyInjector initialState none (.base 0) "" true =
        ((.single .invalid, none), initialState)) :=
  ⟨rfl, rfl, by decide, rfl,
    zero_bindings_resolution wEmptyInjector initialState none (.base 0) ""
      rfl rfl (by decide) rfl⟩

end EngineClaims

section TableLemmas

theorem qualFlat_qualInsert (m : QualMap) (q : String) (b : Binding) :
    List.Perm (qualFlat (qualInsert m q b)) (b :: qualFlat m) := by
  induction m with
  | nil => simp [qualInsert, qualFlat]
  | cons e rest ih =>
    obtain ⟨q1, l⟩ := e
    by_cases hq : q1 = q
    · simp only [qualInsert, if_pos hq, qualFlat, List.map_cons, List.flatten_cons]
      have h1 : l ++ [b] ++ (rest.map (fun e2 => e2.2)).flatten =
          l ++ b :: (rest.map (fun e2 => e2.2)).flatten := by simp
      rw [h1]
      exact List.perm_middle
    · simp only [qualInsert, if_neg hq, qualFlat, List.map_cons, List.flatten_cons]
      exact (ih.append_left l).trans List.perm_middle

theorem allTableBindings_tableInsert (tbl : BindTable) (b : Binding) :
    List.Perm (allTableBindings (tableInsert tbl b)) (b :: allTableBindings tbl) := by
  induction tbl with
  | nil => simp [tableInsert, allTableBindings, qualFlat]
  | cons e rest ih =>
    obtain ⟨t, m⟩ := e
    by_cases ht : t = b.typeof
    · simp only [tableInsert, if_pos ht, allTableBindings, List.map_cons, List.flatten_cons]
      exact (qualFlat_qualInsert m b.annotatedWith b).append_right _
    · simp only [tableInsert, if_neg ht, allTableBindings, List.map_cons, List.flatten_cons]
      exact (ih.append_left (qualFlat m)).trans List.perm_middle

theorem allTableBindings_foldl (bs : List Binding) (tbl : BindTable) :
    List.Perm (allTableBindings (bs.foldl tableInsert tbl)) (allTableBindings tbl ++ bs) := by
  induction bs generalizing tbl with
  | nil => simp
  | cons b bs ih =>
    simp only [List.foldl_cons]
    have h1 := ih (tableInsert tbl b)
    have h2 := (allTableBindings_tableInsert tbl b).append_right bs
    have h3 : (b :: allTableBindings tbl) ++ bs = b :: (allTableBindings tbl ++ bs) := by simp
    rw [h3] at h2
    exact h1.trans (h2.trans List.perm_middle.symm)

theorem allTableBindings_buildTable (bs : List Binding) :
    List.Perm (allTableBindings (buildTable bs)) bs := by
  have := allTableBindings_foldl bs []
  simpa [allTableBindings, buildTable] using this

theorem keys_tableInsert (tbl : BindTable) (b : Binding) (e : RType × QualMap)
    (he : e ∈ tableInsert tbl b) :
    e.1 = b.typeof ∨ e.1 ∈ tbl.map (fun x => x.1) := by
  induction tbl with
  | nil =>
    simp only [tableInsert, List.mem_singleton] at he
    subst he
    exact Or.inl rfl
  | cons x rest ih =>
    obtain ⟨t, m⟩ := x
    by_cases ht : t = b.typeof
    · simp only [tableInsert, if_pos ht, List.mem_cons] at he
      rcases he with he | he
      · subst he; exact Or.inl ht
      · right
        rw [List.map_cons]
        exact List.mem_cons_of_mem _ (List.mem_map_of_mem _ he)
    · simp only [tableInsert, if_neg ht, List.mem_cons] at he
      rcases he with he | he
      · subst he
        right
        rw [List.map_cons]
        exact List.mem_cons_self _ _
      · rcases ih he with h | h
        · exact Or.inl h
        · right
          rw [List.map_cons]
          exact List.mem_cons_of_mem _ h

theorem keys_buildTable (bs : List Binding) (e : RType × QualMap)
    (he : e ∈ buildTable bs) : e.1 ∈ bs.map (fun b => b.typeof) := by
  have main : ∀ (bs : List Binding) (tbl : BindTable) (e : RType × QualMap),
      e ∈ bs.foldl tableInsert tbl →
      e.1 ∈ tbl.map (fun x => x.1) ∨ e.1 ∈ bs.map (fun b => b.typeof) := by
    intro bs
    induction bs with
    | nil => intro tbl e he; exact Or.inl (List.mem_map_of_mem _ he)
    | cons b bs ih =>
      intro tbl e he
      simp only [List.foldl_cons] at he
      rcases ih (tableInsert tbl b) e he with h | h
      · rw [List.mem_map] at h
        obtain ⟨x, hx, hx1⟩ := h
        rcases keys_tableInsert tbl b x hx with h1 | h1
        · right
          rw [List.map_cons, ← hx1, h1]
          exact List.mem_cons_self _ _
        · left
          rw [← hx1]
          exact h1
      · right
        rw [List.map_cons]
        exact List.mem_cons_of_mem _ h
  have := main bs [] e he
  simpa using this

theorem tableSet_eq_append (tbl : BindTable) (t : RType) (m : QualMap)
    (h : ∀ e ∈ tbl, e.1 ≠ t) : tableSet tbl t m = tbl ++ [(t, m)] := by
  induction tbl with
  | nil => rfl
  | cons x rest ih =>
    obtain ⟨t1, m1⟩ := x
    have ht1 : t1 ≠ t := h (t1, m1) (by simp)
    simp only [tableSet, if_neg ht1, List.cons_append]
    rw [ih (fun e he => h e (by simp [he]))]

theorem lookupTable_tableSet_self (tbl : BindTable) (t : RType) (m : QualMap) (q : String) :
    lookupTable (tableSet tbl t m) t q =
      (match m.find? (fun e2 => decide (e2.1 = q)) with
        | none => []
        | some e2 => e2.2) := by
  induction tbl with
  | nil =>
    simp only [tableSet, lookupTable]
    rw [List.find?_cons_of_pos _ (by simp)]
  | cons x rest ih =>
    obtain ⟨t1, m1⟩ := x
    by_cases ht : t1 = t
    · simp only [tableSet, if_pos ht, lookupTable]
      rw [List.find?_cons_of_pos _ (by simp)]
    · simp only [tableSet, if_neg ht, lookupTable]
      rw [List.find?_cons_of_neg _ (by simp [ht])]
      exact ih

end TableLemmas

section EagerLemmas

theorem eagerLoop_success (inj : Injector) (L : List Binding) (st : IState)
    (hscope : inj.scopes SingletonScope = some ScopeV.singleton)
    (hok : ∀ b ∈ L, b.scope = SingletonScope → b.provErr = none)
    (hnodup : ((L.filter (fun b => decide (b.scope = SingletonScope))).map
      (fun b => b.id)).Nodup)
    (hfresh : ∀ b ∈ L, b.scope = SingletonScope →
      st.singletonReg.instanceLock b.id = false) :
    (eagerLoop inj L st).1 = none ∧
    (eagerLoop inj L st).2.createLog =
      st.createLog ++ (L.filter (fun b => decide (b.scope = SingletonScope))).map
        (fun b => b.id) ∧
    (∀ b ∈ L, b.scope = SingletonScope →
      (eagerLoop inj L st).2.singletonReg.instanceLock b.id = true ∧
      (eagerLoop inj L st).2.singletonReg.instances b.id = some b.provValue) ∧
    (∀ i, st.singletonReg.instanceLock i = true →
      (eagerLoop inj L st).2.singletonReg.instanceLock i = true ∧
      (eagerLoop inj L st).2.singletonReg.instances i = st.singletonReg.instances i) := by
  revert hok hnodup hfresh
  induction L generalizing st with
  | nil =>
    intro hok hnodup hfresh
    refine ⟨rfl, by simp [eagerLoop], by simp, ?_⟩
    intro i hi
    exact ⟨hi, rfl⟩
  | cons b L ih =>
    intro hok hnodup hfresh
    by_cases hbs : b.scope = SingletonScope
    · obtain ⟨hres, hlog, hlock, hinst⟩ :=
        getScoped_singleton_fresh inj st none b (by rw [hbs]; exact hscope)
          (hok b (List.mem_cons_self b L) hbs)
          (hfresh b (List.mem_cons_self b L) hbs)
      have hrun : eagerLoop inj (b :: L) st =
          eagerLoop inj L (getScopedInstanceFromBinding inj st none b).2 := by
        simp only [eagerLoop, if_pos hbs, hres]
      rw [List.filter_cons_of_pos (by simp [hbs]), List.map_cons] at hnodup
      have hids : b.id ∉ (L.filter (fun b => decide (b.scope = SingletonScope))).map
          (fun b => b.id) := (List.nodup_cons.mp hnodup).1
      have ihres := ih (getScopedInstanceFromBinding inj st none b).2
        (fun d hd hds => hok d (List.mem_cons_of_mem _ hd) hds)
        (List.nodup_cons.mp hnodup).2
        (fun d hd hds => by
          rw [hlock d.id]
          have hdm : d.id ∈ (L.filter (fun b => decide (b.scope = SingletonScope))).map
              (fun b => b.id) :=
            List.mem_map_of_mem _ (List.mem_filter.mpr ⟨hd, by simp [hds]⟩)
          rw [if_neg (show d.id ≠ b.id from fun hh => hids (by rw [← hh]; exact hdm))]
          exact hfresh d (List.mem_cons_of_mem _ hd) hds)
      refine ⟨?_, ?_, ?_, ?_⟩
      · rw [hrun]; exact ihres.1
      · rw [hrun, ihres.2.1, hlog, List.filter_cons_of_pos (by simp [hbs]), List.map_cons]
        simp
      · intro d hd hds
        rw [hrun]
        rcases List.mem_cons.mp hd with hdb | hdL
        · subst hdb
          have hl1 : (getScopedInstanceFromBinding inj st none d).2.singletonReg.instanceLock d.id = true := by
            rw [hlock]; simp
          have hpres := ihres.2.2.2 d.id hl1
          refine ⟨hpres.1, ?_⟩
          rw [hpres.2, hinst]
          simp
        · exact ihres.2.2.1 d hdL hds
      · intro i hi
        rw [hrun]
        have hineq : i ≠ b.id := by
          intro hh
          rw [hh, hfresh b (List.mem_cons_self b L) hbs] at hi
          exact Bool.false_ne_true hi
        have hi1 : (getScopedInstanceFromBinding inj st none b).2.singletonReg.instanceLock i = true := by
          rw [hlock, if_neg hineq]; exact hi
        have hpres := ihres.2.2.2 i hi1
        refine ⟨hpres.1, ?_⟩
        rw [hpres.2, hinst, if_neg hineq]
    · have hrun : eagerLoop inj (b :: L) st = eagerLoop inj L st := by
        simp only [eagerLoop, if_neg hbs]
      have ihres := ih st
        (fun d hd hds => hok d (List.mem_cons_of_mem _ hd) hds)
        (by rwa [List.filter_cons_of_neg (by simp [hbs])] at hnodup)
        (fun d hd hds => hfresh d (List.mem_cons_of_mem _ hd) hds)
      refine ⟨by rw [hrun]; exact ihres.1, ?_, ?_, ?_⟩
      · rw [hrun, ihres.2.1, List.filter_cons_of_neg (by simp [hbs])]
      · intro d hd hds
        rcases List.mem_cons.mp hd with hdb | hdL
        · subst hdb; exact absurd hds hbs
        · rw [hrun]; exact ihres.2.2.1 d hdL hds
      · intro i hi
        rw [hrun]; exact ihres.2.2.2 i hi

theorem eagerLoop_failure (inj : Injector) (L : List Binding) (st : IState)
    (hscope : inj.scopes SingletonScope = some ScopeV.singleton)
    (hnodup : ((L.filter (fun b => decide (b.scope = SingletonScope))).map
      (fun b => b.id)).Nodup)
    (hfresh : ∀ b ∈ L, b.scope = SingletonScope →
      st.singletonReg.instanceLock b.id = false)
    (hfail : ∃ b ∈ L, b.scope = SingletonScope ∧ b.provErr.isSome) :
    ∃ e, (eagerLoop inj L st).1 =
        some (.failedEagerSingleton (.providerReturned e)) ∧
      ∃ b ∈ L, b.scope = SingletonScope ∧ b.provErr = some e := by
  revert hnodup hfresh hfail
  induction L generalizing st with
  | nil => intro _ _ hfail; exact absurd hfail (by simp)
  | cons b L ih =>
    intro hnodup hfresh hfail
    by_cases hbs : b.scope = SingletonScope
    · cases hpe : b.provErr with
      | some e =>
        have hsv : inj.scopes b.scope = some ScopeV.singleton := by rw [hbs]; exact hscope
        have hstep : (getScopedInstanceFromBinding inj st none b).1 =
            (b.provValue, some (.providerReturned e)) := by
          simp [getScopedInstanceFromBinding, hsv, bindingCreate, hpe, resolveBinding,
            hfresh b (List.mem_cons_self b L) hbs]
        refine ⟨e, ?_, b, List.mem_cons_self b L, hbs, hpe⟩
        simp only [eagerLoop, if_pos hbs, hstep]
      | none =>
        obtain ⟨hres, hlog, hlock, hinst⟩ :=
          getScoped_singleton_fresh inj st none b (by rw [hbs]; exact hscope) hpe
            (hfresh b (List.mem_cons_self b L) hbs)
        have hrun : eagerLoop inj (b :: L) st =
            eagerLoop inj L (getScopedInstanceFromBinding inj st none b).2 := by
          simp only [eagerLoop, if_pos hbs, hres]
        rw [List.filter_cons_of_pos (by simp [hbs]), List.map_cons] at hnodup
        have hids : b.id ∉ (L.filter (fun b => decide (b.scope = SingletonScope))).map
            (fun b => b.id) := (List.nodup_cons.mp hnodup).1
        have hfail2 : ∃ d ∈ L, d.scope = SingletonScope ∧ d.provErr.isSome := by
          obtain ⟨d, hd, hds, hde⟩ := hfail
          rcases List.mem_cons.mp hd with hdb | hdL
          · subst hdb; rw [hpe] at hde; simp at hde
          · exact ⟨d, hdL, hds, hde⟩
        obtain ⟨e, h1, d, hd, hds, hde⟩ := ih (getScopedInstanceFromBinding inj st none b).2
          (List.nodup_cons.mp hnodup).2
          (fun d hd hds => by
            rw [hlock d.id]
            have hdm : d.id ∈ (L.filter (fun b => decide (b.scope = SingletonScope))).map
                (fun b => b.id) :=
              List.mem_map_of_mem _ (List.mem_filter.mpr ⟨hd, by simp [hds]⟩)
            rw [if_neg (show d.id ≠ b.id from fun hh => hids (by rw [← hh]; exact hdm))]
            exact hfresh d (List.mem_cons_of_mem _ hd) hds)
          hfail2
        exact ⟨e, by rw [hrun]; exact h1, d, List.mem_cons_of_mem _ hd, hds, hde⟩
    · have hrun : eagerLoop inj (b :: L) st = eagerLoop inj L st := by
        simp only [eagerLoop, if_neg hbs]
      have hfail2 : ∃ d ∈ L, d.scope = SingletonScope ∧ d.provErr.isSome := by
        obtain ⟨d, hd, hds, hde⟩ := hfail
        rcases List.mem_cons.mp hd with hdb | hdL
        · subst hdb; exact absurd hds hbs
        · exact ⟨d, hdL, hds, hde⟩
      obtain ⟨e, h1, d, hd, hds, hde⟩ := ih st
        (by rwa [List.filter_cons_of_neg (by simp [hbs])] at hnodup)
        (fun d hd hds => hfresh d (List.mem_cons_of_mem _ hd) hds)
        hfail2
      exact ⟨e, by rw [hrun]; exact h1, d, List.mem_cons_of_mem _ hd, hds, hde⟩

end EagerLemmas

section NewInjectorLemmas

theorem allTableBindings_append (l1 l2 : BindTable) :
    allTableBindings (l1 ++ l2) = allTableBindings l1 ++ allTableBindings l2 := by
  simp [allTableBindings]

theorem builtInjector_table_eq (bs : List Binding) (user : String → Option ScopeV)
    (hno : ∀ b ∈ bs, b.typeof ≠ RType.injectorT) :
    (builtInjector bs user).bindings =
      buildTable bs ++ [(RType.injectorT, [("", [injectorBinding])])] := by
  show tableSet (buildTable bs) RType.injectorT [("", [injectorBinding])] = _
  apply tableSet_eq_append
  intro e he hcontra
  have hk := keys_buildTable bs e he
  rw [hcontra, List.mem_map] at hk
  obtain ⟨b, hb, hb1⟩ := hk
  exact hno b hb hb1

theorem allTable_builtInjector (bs : List Binding) (user : String → Option ScopeV)
    (hno : ∀ b ∈ bs, b.typeof ≠ RType.injectorT) :
    List.Perm (allTableBindings (builtInjector bs user).bindings)
      (bs ++ [injectorBinding]) := by
  rw [builtInjector_table_eq bs user hno, allTableBindings_append]
  have h2 : allTableBindings [(RType.injectorT, [("", [injectorBinding])])] =
      [injectorBinding] := by
    simp [allTableBindings, qualFlat]
  rw [h2]
  exact (allTableBindings_buildTable bs).append_right _

theorem singleton_ids_nodup_target (bs : List Binding)
    (hids : (bs.map (fun b => b.id)).Nodup)
    (hinjid : ∀ b ∈ bs, b.id ≠ injectorBinding.id) :
    (((bs ++ [injectorBinding]).filter
      (fun b => decide (b.scope = SingletonScope))).map (fun b => b.id)).Nodup := by
  rw [List.filter_append, List.map_append]
  have hf : [injectorBinding].filter (fun b => decide (b.scope = SingletonScope)) =
      [injectorBinding] := by
    simp [injectorBinding]
  rw [hf]
  rw [List.nodup_append]
  refine ⟨?_, by simp, ?_⟩
  · have hsub : ((bs.filter (fun b => decide (b.scope = SingletonScope))).map
        (fun b => b.id)).Sublist (bs.map (fun b => b.id)) :=
      (List.filter_sublist bs).map _
    exact hids.sublist hsub
  · intro x hx hx2
    rw [List.mem_map] at hx
    obtain ⟨b, hb, hb1⟩ := hx
    rw [List.mem_filter] at hb
    have hx3 : x = injectorBinding.id := by simpa using hx2
    exact hinjid b hb.1 (hb1.trans hx3)

theorem newInjector_success_state (bs : List Binding) (user : String → Option ScopeV)
    (hids : (bs.map (fun b => b.id)).Nodup)
    (hinjid : ∀ b ∈ bs, b.id ≠ injectorBinding.id)
    (hno : ∀ b ∈ bs, b.typeof ≠ RType.injectorT)
    (hall : ∀ b ∈ bs, b.scope = SingletonScope → b.provErr = none) :
    ∃ st, NewInjector bs user = ((some (builtInjector bs user), none), st) ∧
      st.createLog = ((allTableBindings (builtInjector bs user).bindings).filter
        (fun b => decide (b.scope = SingletonScope))).map (fun b => b.id) ∧
      (∀ b ∈ allTableBindings (builtInjector bs user).bindings,
        b.scope = SingletonScope →
          st.singletonReg.instanceLock b.id = true ∧
          st.singletonReg.instances b.id = some b.provValue) := by
  have hscope : (builtInjector bs user).scopes SingletonScope = some ScopeV.singleton := by
    simp [builtInjector, buildScopes]
  have hperm := allTable_builtInjector bs user hno
  have hok : ∀ b ∈ allTableBindings (builtInjector bs user).bindings,
      b.scope = SingletonScope → b.provErr = none := by
    intro b hb hbs
    rcases List.mem_append.mp (hperm.mem_iff.mp hb) with h | h
    · exact hall b h hbs
    · rw [List.mem_singleton.mp h]; rfl
  have hnodup : (((allTableBindings (builtInjector bs user).bindings).filter
      (fun b => decide (b.scope = SingletonScope))).map (fun b => b.id)).Nodup := by
    have hp3 := (hperm.filter (fun b => decide (b.scope = SingletonScope))).map
      (fun b => b.id)
    exact hp3.nodup_iff.mpr (singleton_ids_nodup_target bs hids hinjid)
  have hfresh : ∀ b ∈ allTableBindings (builtInjector bs user).bindings,
      b.scope = SingletonScope →
      initialState.singletonReg.instanceLock b.id = false := fun _ _ _ => rfl
  obtain ⟨h1, h2, h3, _⟩ := eagerLoop_success (builtInjector bs user)
    (allTableBindings (builtInjector bs user).bindings) initialState
    hscope hok hnodup hfresh
  refine ⟨(eagerLoop (builtInjector bs user)
      (allTableBindings (builtInjector bs user).bindings) initialState).2, ?_, ?_, h3⟩
  · simp only [NewInjector, eagerlyCreateSingletons, h1]
  · rw [h2]
    simp [initialState]

end NewInjectorLemmas

section NewInjectorClaims

/-- C9: at injector build time, every Singleton-scoped configured binding is
resolved exactly once proactively (its provider runs exactly once, recorded by
the creation log); if some Singleton-scoped binding's provider fails,
`NewInjector` returns a nil injector together with a non-nil error wrapping
the provider's failure; if all succeed, the injector is returned and a later
resolution of any such binding reuses the memoized instance, leaving the
state (and hence the invocation count) unchanged. -/
theorem newInjector_eager_singletons (bs : List Binding) (user : String → Option ScopeV)
    (hids : (bs.map (fun b => b.id)).Nodup)
    (hinjid : ∀ b ∈ bs, b.id ≠ injectorBinding.id)
    (hno : ∀ b ∈ bs, b.typeof ≠ RType.injectorT) :
    ((∃ b ∈ bs, b.scope = SingletonScope ∧ b.provErr.isSome) →
      (NewInjector bs user).1.1 = none ∧
      ∃ e, (NewInjector bs user).1.2 =
          some (EngineErr.failedEagerSingleton (EngineErr.providerReturned e)) ∧
        ∃ b ∈ bs, b.scope = SingletonScope ∧ b.provErr = some e) ∧
    ((∀ b ∈ bs, b.scope = SingletonScope → b.provErr = none) →
      ∃ st, NewInjector bs user = ((some (builtInjector bs user), none), st) ∧
        ∀ b ∈ bs, b.scope = SingletonScope →
          st.createLog.count b.id = 1 ∧
          getScopedInstanceFromBinding (builtInjector bs user) st none b =
            ((b.provValue, none), st)) := by
  have hscope : (builtInjector bs user).scopes SingletonScope = some ScopeV.singleton := by
    simp [builtInjector, buildScopes]
  have hperm := allTable_builtInjector bs user hno
  have hnodup : (((allTableBindings (builtInjector bs user).bindings).filter
      (fun b => decide (b.scope = SingletonScope))).map (fun b => b.id)).Nodup := by
    have hp3 := (hperm.filter (fun b => decide (b.scope = SingletonScope))).map
      (fun b => b.id)
    exact hp3.nodup_iff.mpr (singleton_ids_nodup_target bs hids hinjid)
  constructor
  · intro hfail
    have hfresh : ∀ b ∈ allTableBindings (builtInjector bs user).bindings,
        b.scope = SingletonScope →
        initialState.singletonReg.instanceLock b.id = false := fun _ _ _ => rfl
    have hfail2 : ∃ b ∈ allTableBindings (builtInjector bs user).bindings,
        b.scope = SingletonScope ∧ b.provErr.isSome := by
      obtain ⟨b, hb, hbs, hbe⟩ := hfail
      exact ⟨b, hperm.mem_iff.mpr (List.mem_append_left _ hb), hbs, hbe⟩
    obtain ⟨e, h1, d, hd, hds, hde⟩ := eagerLoop_failure (builtInjector bs user)
      (allTableBindings (builtInjector bs user).bindings) initialState
      hscope hnodup hfresh hfail2
    refine ⟨?_, e, ?_, ?_⟩
    · simp only [NewInjector, eagerlyCreateSingletons, h1]
    · simp only [NewInjector, eagerlyCreateSingletons, h1]
    · rcases List.mem_append.mp (hperm.mem_iff.mp hd) with h | h
      · exact ⟨d, h, hds, hde⟩
      · rw [List.mem_singleton.mp h] at hde
        simp [injectorBinding] at hde
  · intro hall
    obtain ⟨st, hni, hlog, hmem⟩ := newInjector_success_state bs user hids hinjid hno hall
    refine ⟨st, hni, ?_⟩
    intro b hb hbs
    refine ⟨?_, ?_⟩
    · rw [hlog]
      have hp3 := (hperm.filter (fun x => decide (x.scope = SingletonScope))).map
        (fun x => x.id)
      rw [hp3.count_eq]
      rw [List.filter_append, List.map_append]
      rw [show [injectorBinding].filter (fun x => decide (x.scope = SingletonScope)) =
        [injectorBinding] from by simp [injectorBinding]]
      rw [List.count_append]
      have hone : ((bs.filter (fun x => decide (x.scope = SingletonScope))).map
          (fun x => x.id)).count b.id = 1 := by
        have hmemb : b.id ∈ (bs.filter (fun x => decide (x.scope = SingletonScope))).map
            (fun x => x.id) :=
          List.mem_map_of_mem _ (List.mem_filter.mpr ⟨hb, by simp [hbs]⟩)
        have hnd : ((bs.filter (fun x => decide (x.scope = SingletonScope))).map
            (fun x => x.id)).Nodup :=
          hids.sublist ((List.filter_sublist bs).map _)
        exact List.count_eq_one_of_mem hnd hmemb
      have hzero : (([injectorBinding] : List Binding).map (fun x => x.id)).count b.id = 0 := by
        rw [List.count_eq_zero]
        simpa using hinjid b hb
      rw [hone, hzero]
    · have hsv : (builtInjector bs user).scopes b.scope = some ScopeV.singleton := by
        rw [hbs]; exact hscope
      have hm := hmem b (hperm.mem_iff.mpr (List.mem_append_left _ hb)) hbs
      simp [getScopedInstanceFromBinding, hsv, bindingCreate, hall b hb hbs,
        resolveBinding, hm.1, hm.2]

/-- Witness for C9: a single Singleton-scoped binding with a succeeding
provider; NewInjector returns the built injector, the binding's provider ran
exactly once, and a later resolution returns the memoized instance without
changing the state. -/
theorem newInjector_eager_singletons_witness :
    (([wSingleton].map (fun b => b.id)).Nodup) ∧
    (∀ b ∈ [wSingleton], b.id ≠ injectorBinding.id) ∧
    (∀ b ∈ [wSingleton], b.typeof ≠ RType.injectorT) ∧
    (((∃ b ∈ [wSingleton], b.scope = SingletonScope ∧ b.provErr.isSome) →
      (NewInjector [wSingleton] (fun _ => none)).1.1 = none ∧
      ∃ e, (NewInjector [wSingleton] (fun _ => none)).1.2 =
          some (EngineErr.failedEagerSingleton (EngineErr.providerReturned e)) ∧
        ∃ b ∈ [wSingleton], b.scope = SingletonScope ∧ b.provErr = some e) ∧
    ((∀ b ∈ [wSingleton], b.scope = SingletonScope → b.provErr = none) →
      ∃ st, NewInjector [wSingleton] (fun _ => none) =
          ((some (builtInjector [wSingleton] (fun _ => none)), none), st) ∧
        ∀ b ∈ [wSingleton], b.scope = SingletonScope →
          st.createLog.count b.id = 1 ∧
          getScopedInstanceFromBinding (builtInjector [wSingleton] (fun _ => none)) st none b =
            ((b.provValue, none), st))) :=
  ⟨by decide, by decide, by decide,
    newInjector_eager_singletons [wSingleton] (fun _ => none)
      (by decide) (by decide) (by decide)⟩

/-- C10: every injector built successfully by NewInjector carries the
implicit Singleton-scoped binding for the `*Injector` type under the empty
qualifier, and resolving that type yields the injector self-reference. -/
theorem injector_self_binding (bs : List Binding) (user : String → Option ScopeV)
    (hids : (bs.map (fun b => b.id)).Nodup)
    (hinjid : ∀ b ∈ bs, b.id ≠ injectorBinding.id)
    (hno : ∀ b ∈ bs, b.typeof ≠ RType.injectorT)
    (hall : ∀ b ∈ bs, b.scope = SingletonScope → b.provErr = none) :
    ∃ st, NewInjector bs user = ((some (builtInjector bs user), none), st) ∧
      findBindingsForAnnotatedType (builtInjector bs user) RType.injectorT "" =
        [injectorBinding] ∧
      injectorBinding.scope = SingletonScope ∧
      getInstanceOfAnnotatedType (builtInjector bs user) st none RType.injectorT "" false =
        ((RResult.single RValue.injectorRef, none), st) := by
  have hperm := allTable_builtInjector bs user hno
  obtain ⟨st, hni, hlog, hmem⟩ := newInjector_success_state bs user hids hinjid hno hall
  have hfind : findBindingsForAnnotatedType (builtInjector bs user) RType.injectorT "" =
      [injectorBinding] := by
    show lookupTable (tableSet (buildTable bs) RType.injectorT
      [("", [injectorBinding])]) RType.injectorT "" = _
    rw [lookupTable_tableSet_self]
    rw [List.find?_cons_of_pos _ (by simp)]
  refine ⟨st, hni, hfind, rfl, ?_⟩
  have hm := hmem injectorBinding (hperm.mem_iff.mpr (by simp)) rfl
  have hm1 : st.singletonReg.instanceLock 0 = true := hm.1
  have hm2 : st.singletonReg.instances 0 = some RValue.injectorRef := hm.2
  have hsv : (builtInjector bs user).scopes SingletonScope =
      some ScopeV.singleton := by
    simp [builtInjector, buildScopes]
  simp [getInstanceOfAnnotatedType, hfind, getScopedInstanceFromBinding, hsv,
    bindingCreate, resolveBinding, hm1, hm2, injectorBinding]

/-- Witness for C10 at a concrete one-binding configuration. -/
theorem injector_self_binding_witness :
    (([wSingleton].map (fun b => b.id)).Nodup) ∧
    (∀ b ∈ [wSingleton], b.id ≠ injectorBinding.id) ∧
    (∀ b ∈ [wSingleton], b.typeof ≠ RType.injectorT) ∧
    (∀ b ∈ [wSingleton], b.scope = SingletonScope → b.provErr = none) ∧
    (∃ st, NewInjector [wSingleton] (fun _ => none) =
        ((some (builtInjector [wSingleton] (fun _ => none)), none), st) ∧
      findBindingsForAnnotatedType (builtInjector [wSingleton] (fun _ => none))
          RType.injectorT "" = [injectorBinding] ∧
      injectorBinding.scope = SingletonScope ∧
      getInstanceOfAnnotatedType (builtInjector [wSingleton] (fun _ => none)) st none
          RType.injectorT "" false =
        ((RResult.single RValue.injectorRef, none), st)) :=
  ⟨by decide, by decide, by decide, by decide,
    injector_self_binding [wSingleton] (fun _ => none)
      (by decide) (by decide) (by decide) (by decide)⟩

end NewInjectorClaims
